import Mathlib

/- Verification development for the rolling-metrics pipeline of the
   A-share scale-effect research application (src/app.py).

   Embedding conventions.

   The application keeps its data in pandas DataFrames whose cells are IEEE
   doubles with NaN marking an absent cell.  The model idealises doubles as
   rationals.  A matrix cell that can only be a number or absent is an
   Option Rat (none = NaN).  The effective rolling Sharpe ratio divides by a
   volatility that can be exactly 0, so Sharpe cells live in EVal, which also
   carries the two signed infinities of IEEE arithmetic.

   app.py defines each metric function twice; at run time the later
   definition shadows the earlier one.  The later, effective definitions keep
   their source names here; the earlier shadowed variants carry a _v1 suffix.

   DataFrame.rolling acts on each column independently, so the rolling
   functions are modelled on one group column of the period-aggregated
   matrix: a list of Option Rat cells, rows sorted ascending by period.

   The source volatility is the window sample standard deviation (ddof = 1)
   times sqrt 12.  Both square roots are irrational, and every claim settled
   against the volatility pipeline concerns only absence, exact zero-ness or
   the sign of quantities derived from it - all invariant under squaring on
   the nonnegative reals - so the model stores the square of the annualised
   volatility, 12 * sample variance, keeping the development in Rat. -/

/-- IEEE-style extended value of one matrix cell: NaN (absent), a signed
infinity, or a finite rational. -/
inductive EVal where
  | nan : EVal
  | negInf : EVal
  | posInf : EVal
  | fin : ℚ → EVal
  deriving DecidableEq

/-- Strict comparison of extended values; every comparison with NaN is false,
as for IEEE doubles. -/
def ltE : EVal → EVal → Bool
  | EVal.nan, _ => false
  | EVal.negInf, EVal.nan => false
  | EVal.negInf, EVal.negInf => false
  | EVal.negInf, EVal.posInf => true
  | EVal.negInf, EVal.fin _ => true
  | EVal.posInf, _ => false
  | EVal.fin _, EVal.nan => false
  | EVal.fin _, EVal.negInf => false
  | EVal.fin _, EVal.posInf => true
  | EVal.fin a, EVal.fin b => decide (a < b)

/-- Non-strict comparison of extended values. -/
def leE (a b : EVal) : Bool := ltE a b || decide (a = b)

/-- IEEE subtraction on extended values. -/
def subE : EVal → EVal → EVal
  | EVal.nan, _ => EVal.nan
  | EVal.negInf, EVal.nan => EVal.nan
  | EVal.negInf, EVal.negInf => EVal.nan
  | EVal.negInf, EVal.posInf => EVal.negInf
  | EVal.negInf, EVal.fin _ => EVal.negInf
  | EVal.posInf, EVal.nan => EVal.nan
  | EVal.posInf, EVal.posInf => EVal.nan
  | EVal.posInf, EVal.negInf => EVal.posInf
  | EVal.posInf, EVal.fin _ => EVal.posInf
  | EVal.fin _, EVal.nan => EVal.nan
  | EVal.fin _, EVal.posInf => EVal.negInf
  | EVal.fin _, EVal.negInf => EVal.posInf
  | EVal.fin a, EVal.fin b => EVal.fin (a - b)

/-- IEEE addition on extended values. -/
def addE : EVal → EVal → EVal
  | EVal.nan, _ => EVal.nan
  | EVal.negInf, EVal.nan => EVal.nan
  | EVal.negInf, EVal.negInf => EVal.negInf
  | EVal.negInf, EVal.posInf => EVal.nan
  | EVal.negInf, EVal.fin _ => EVal.negInf
  | EVal.posInf, EVal.nan => EVal.nan
  | EVal.posInf, EVal.posInf => EVal.posInf
  | EVal.posInf, EVal.negInf => EVal.nan
  | EVal.posInf, EVal.fin _ => EVal.posInf
  | EVal.fin _, EVal.nan => EVal.nan
  | EVal.fin _, EVal.posInf => EVal.posInf
  | EVal.fin _, EVal.negInf => EVal.negInf
  | EVal.fin a, EVal.fin b => EVal.fin (a + b)

/-- IEEE division on extended values (zeros are the positive zero, as
produced by the pipeline). -/
def divE : EVal → EVal → EVal
  | EVal.nan, _ => EVal.nan
  | EVal.negInf, EVal.nan => EVal.nan
  | EVal.negInf, EVal.negInf => EVal.nan
  | EVal.negInf, EVal.posInf => EVal.nan
  | EVal.negInf, EVal.fin d => if d < 0 then EVal.posInf else EVal.negInf
  | EVal.posInf, EVal.nan => EVal.nan
  | EVal.posInf, EVal.negInf => EVal.nan
  | EVal.posInf, EVal.posInf => EVal.nan
  | EVal.posInf, EVal.fin d => if d < 0 then EVal.negInf else EVal.posInf
  | EVal.fin _, EVal.nan => EVal.nan
  | EVal.fin _, EVal.posInf => EVal.fin 0
  | EVal.fin _, EVal.negInf => EVal.fin 0
  | EVal.fin a, EVal.fin d =>
      if d = 0 then
        if 0 < a then EVal.posInf else if a < 0 then EVal.negInf else EVal.nan
      else EVal.fin (a / d)

/-- Multiplication of an extended value by a rational scalar. -/
def smulE (c : ℚ) : EVal → EVal
  | EVal.nan => EVal.nan
  | EVal.posInf => if 0 < c then EVal.posInf else if c < 0 then EVal.negInf else EVal.nan
  | EVal.negInf => if 0 < c then EVal.negInf else if c < 0 then EVal.posInf else EVal.nan
  | EVal.fin q => EVal.fin (c * q)

/-- View of an Option Rat cell as an extended value (NaN for absent). -/
def ofCell : Option ℚ → EVal
  | none => EVal.nan
  | some q => EVal.fin q

/-- Trailing window of positions max(0, i-w+1) .. i of a column, as used by
pandas rolling(window = w) at row i. -/
def windowAt (w : ℕ) (col : List (Option ℚ)) (i : ℕ) : List (Option ℚ) :=
  (col.take (i+1)).drop (i+1-w)

/-- Shadowed first definition of calculate_rolling_annual_return
(src/app.py lines 289-324), acting on one group column.  The source rolls
the series (1 + monthly_returns) with min_periods = 1 and applies
np.prod(1 + x) to each window, then subtracts 1; x is already 1 + v, so the
product multiplies factors 1 + (1 + v).  rolling.apply hands the window to
the function with its NaNs, and np.prod propagates NaN, so any absent cell
inside the window makes the result absent; min_periods masks windows with
fewer than 1 valid observation. -/
def calculate_rolling_annual_return_v1 (window : ℕ) (col : List (Option ℚ)) :
    List (Option ℚ) :=
  (List.range col.length).map (fun i =>
    let win := windowAt window col i
    let valid := win.filterMap id
    if valid.length < 1 ∨ valid.length ≠ win.length then none
    else some (((valid.map (fun v => 1 + v)).map (fun x => 1 + x)).prod - 1))

/-- Effective definition of calculate_rolling_annual_return (src/app.py
lines 785-810): identical to the shadowed variant except that no
min_periods is given, so pandas defaults min_periods to the window size and
every row with fewer than window observations is absent. -/
def calculate_rolling_annual_return (window : ℕ) (col : List (Option ℚ)) :
    List (Option ℚ) :=
  (List.range col.length).map (fun i =>
    let win := windowAt window col i
    let valid := win.filterMap id
    if valid.length < window ∨ valid.length ≠ win.length then none
    else some (((valid.map (fun v => 1 + v)).map (fun x => 1 + x)).prod - 1))

/-- Sample variance with the N-1 denominator (ddof = 1), as pandas
rolling std uses before its square root. -/
def sampleVar (l : List ℚ) : ℚ :=
  (l.map (fun x => (x - l.sum / (l.length : ℚ)) * (x - l.sum / (l.length : ℚ)))).sum
    / ((l.length : ℚ) - 1)

/-- Shadowed first definition of calculate_rolling_volatility (src/app.py
lines 326-351) on one column: rolling std with min_periods = 2, times
sqrt 12.  The built-in rolling std skips NaNs inside the window, so a cell
is absent exactly when fewer than 2 valid values are in the window.  As
explained at the top of the file, the model stores the square of the
annualised volatility: 12 * sample variance. -/
def calculate_rolling_volatility_v1 (window : ℕ) (col : List (Option ℚ)) :
    List (Option ℚ) :=
  (List.range col.length).map (fun i =>
    let valid := (windowAt window col i).filterMap id
    if valid.length < 2 then none
    else some (12 * sampleVar valid))

/-- Effective definition of calculate_rolling_volatility (src/app.py lines
812-836): no min_periods, so pandas requires window valid observations; a
lone observation still gives NaN because the ddof = 1 std of one value is
undefined. -/
def calculate_rolling_volatility (window : ℕ) (col : List (Option ℚ)) :
    List (Option ℚ) :=
  (List.range col.length).map (fun i =>
    let valid := (windowAt window col i).filterMap id
    if valid.length < window ∨ valid.length < 2 then none
    else some (12 * sampleVar valid))

/-- Fixed annual risk-free rate used by both Sharpe definitions. -/
def risk_free_rate : ℚ := 1/50

/-- Shadowed first definition of calculate_rolling_sharpe (src/app.py lines
353-394): np.where(rolling_vol == 0, nan, (rolling_annual - rf)/rolling_vol)
on the min_periods-aware variants.  A zero volatility cell is mapped to NaN
before the division can produce an infinity; NaN operands propagate. -/
def calculate_rolling_sharpe_v1 (window : ℕ) (col : List (Option ℚ)) : List EVal :=
  (List.range col.length).map (fun i =>
    let vol := ofCell ((calculate_rolling_volatility_v1 window col).getD i none)
    if vol = EVal.fin 0 then EVal.nan
    else
      divE
        (subE (ofCell ((calculate_rolling_annual_return_v1 window col).getD i none))
          (EVal.fin risk_free_rate))
        vol)

/-- Effective definition of calculate_rolling_sharpe (src/app.py lines
838-866): (rolling_annual - risk_free_rate) / rolling_vol on the effective
variants, with no zero-volatility guard; dividing a nonzero numerator by a
zero volatility yields a signed infinity, 0/0 yields NaN. -/
def calculate_rolling_sharpe (window : ℕ) (col : List (Option ℚ)) : List EVal :=
  (List.range col.length).map (fun i =>
    divE
      (subE (ofCell ((calculate_rolling_annual_return window col).getD i none))
        (EVal.fin risk_free_rate))
      (ofCell ((calculate_rolling_volatility window col).getD i none)))

/-- Smallest present value of a column, as pandas Series.min skips NaN.
Only used by the scorer on columns known to have a present value. -/
def histMinQ (l : List (Option ℚ)) : ℚ :=
  match l.filterMap id with
  | [] => 0
  | x :: xs => xs.foldl min x

/-- Largest present value of a column, as pandas Series.max skips NaN. -/
def histMaxQ (l : List (Option ℚ)) : ℚ :=
  match l.filterMap id with
  | [] => 0
  | x :: xs => xs.foldl max x

/-- Non-NaN entries of an extended-value column; signed infinities are kept,
exactly as Series.dropna and the skipna aggregations keep them. -/
def nonNanE (l : List EVal) : List EVal := l.filter (fun x => decide (x ≠ EVal.nan))

/-- Binary minimum of extended values (callers never pass NaN). -/
def min2E (a b : EVal) : EVal := if ltE a b then a else b

/-- Binary maximum of extended values (callers never pass NaN). -/
def max2E (a b : EVal) : EVal := if ltE a b then b else a

/-- Minimum of an extended-value column, NaN when empty. -/
def minE (l : List EVal) : EVal :=
  match l with
  | [] => EVal.nan
  | x :: xs => xs.foldl min2E x

/-- Maximum of an extended-value column, NaN when empty. -/
def maxE (l : List EVal) : EVal :=
  match l with
  | [] => EVal.nan
  | x :: xs => xs.foldl max2E x

/-- Annual-return sub-score block of the effective scorer (src/app.py lines
930-936): min-max normalisation of the cell value a over the full history
of the group's rolling annual-return column A; 0 when the historical range
is degenerate. -/
def annual_score_of (A : List (Option ℚ)) (a : ℚ) : ℚ :=
  if histMinQ A < histMaxQ A then
    100 * (a - histMinQ A) / (histMaxQ A - histMinQ A)
  else 0

/-- Volatility sub-score block of the effective scorer (src/app.py lines
938-947): inverse min-max normalisation over the group's volatility column
V, with the extra 0.7 multiplier when the raw value is above
min + 0.75 * (max - min); 0 when the historical range is degenerate. -/
def vol_score_of (V : List (Option ℚ)) (v : ℚ) : ℚ :=
  if histMinQ V < histMaxQ V then
    let s := 100 * (1 - (v - histMinQ V) / (histMaxQ V - histMinQ V))
    if v > histMinQ V + 3/4 * (histMaxQ V - histMinQ V) then s * (7/10) else s
  else 0

/-- Sharpe sub-score block of the effective scorer (src/app.py lines
949-958): min-max normalisation of the cell value sv over the non-NaN
entries of the group's Sharpe column S (infinities included, as the float
min/max keep them), with the extra 0.5 multiplier when the raw value is
negative; 0 when the guard max > min fails. -/
def sharpe_score_of (S : List EVal) (sv : EVal) : EVal :=
  if ltE (minE (nonNanE S)) (maxE (nonNanE S)) then
    let s := divE (smulE 100 (subE sv (minE (nonNanE S))))
      (subE (maxE (nonNanE S)) (minE (nonNanE S)))
    if ltE sv (EVal.fin 0) then smulE (1/2) s else s
  else EVal.fin 0

/-- One cell of the total-score matrix before the final fillna, for one
group column, modelling the per-date per-group body of the effective
calculate_time_series_metrics (src/app.py lines 916-967).  A, V, S are the
rolling annual-return, volatility and Sharpe columns of the group.  The cell
is skipped (NaN) unless the group survives the dropna of all three rows;
the weighted total is 0.3 * annual + 0.2 * volatility + 0.5 * sharpe. -/
def scoreCellRaw (A V : List (Option ℚ)) (S : List EVal) (i : ℕ) : EVal :=
  match A.getD i none, V.getD i none, S.getD i EVal.nan with
  | some a, some v, sv =>
    if sv = EVal.nan then EVal.nan
    else
      addE (EVal.fin (3/10 * annual_score_of A a + 1/5 * vol_score_of V v))
        (smulE (1/2) (sharpe_score_of S sv))
  | _, _, _ => EVal.nan

/-- The final scores.fillna(0) of the effective scorer: NaN cells become 0;
other cells (including any infinity) pass through. -/
def fillna0 (x : EVal) : EVal := if x = EVal.nan then EVal.fin 0 else x

/-- The total-score column for one group: one cell per row of the rolling
annual-return index, then fillna(0) (src/app.py lines 916-969). -/
def computeScoresCol (A V : List (Option ℚ)) (S : List EVal) : List EVal :=
  ((List.range A.length).map (fun i => scoreCellRaw A V S i)).map fillna0

/-- Total-score column of calculate_time_series_metrics with metric = None
(src/app.py lines 868-976) for one group column of the period matrix:
the three effective rolling statistics feed the scorer. -/
def calculate_time_series_metrics_scores (window : ℕ) (col : List (Option ℚ)) :
    List EVal :=
  computeScoresCol (calculate_rolling_annual_return window col)
    (calculate_rolling_volatility window col)
    (calculate_rolling_sharpe window col)

/-- Return sub-score in the words of the specification: min-max normalised
to 0-100 over the group's history, higher is better. -/
def spec_return_score (value gmin gmax : ℚ) : ℚ :=
  100 * (value - gmin) / (gmax - gmin)

/-- Volatility sub-score in the words of the specification: inverse min-max
normalisation, with a 0.7 penalty multiplier when the raw value exceeds
gmin + 0.75 * (gmax - gmin). -/
def spec_volatility_score (value gmin gmax : ℚ) : ℚ :=
  (if value > gmin + 3/4 * (gmax - gmin) then 7/10 else 1) *
    (100 * (1 - (value - gmin) / (gmax - gmin)))

/-- Sharpe sub-score in the words of the specification: min-max normalised,
with a 0.5 penalty multiplier applied after normalisation when the raw
value is negative. -/
def spec_sharpe_score (value gmin gmax : ℚ) : ℚ :=
  (if value < 0 then 1/2 else 1) * (100 * (value - gmin) / (gmax - gmin))

/-- Composite score in the words of the specification:
0.3 * return_score + 0.2 * volatility_score + 0.5 * sharpe_score. -/
def spec_composite_score (r rmin rmax v vmin vmax s smin smax : ℚ) : ℚ :=
  3/10 * spec_return_score r rmin rmax + 1/5 * spec_volatility_score v vmin vmax
    + 1/2 * spec_sharpe_score s smin smax

/-- One raw observation row as calculate_monthly_returns receives it. -/
structure Row where
  trade_date : ℕ
  group_name : String
  monthly_return : ℚ
  deriving DecidableEq

/-- Result shape of the pivot: sorted period index, sorted group columns,
and the cell table in row-major order. -/
structure PeriodMatrix where
  index : List ℕ
  columns : List String
  values : List (List (Option ℚ))
  deriving DecidableEq

/-- Sorted distinct key list, as a pandas pivot_table builds its index and
columns from the values present in the data. -/
def sortedKeys {α : Type} [LinearOrder α] [DecidableEq α] (l : List α) : List α :=
  l.dedup.insertionSort (fun a b => a ≤ b)

/-- Mean of the observations of one (period, group) cell; absent when the
cell has no observation (pivot_table with aggfunc mean). -/
def cellMean (rows : List Row) (d : ℕ) (g : String) : Option ℚ :=
  let cell := (rows.filter (fun r => decide (r.trade_date = d ∧ r.group_name = g))).map
    (fun r => r.monthly_return)
  if cell.length = 0 then none else some (cell.sum / (cell.length : ℚ))

/-- calculate_monthly_returns (src/app.py lines 754-783): keep rows of the
requested groups, pivot on (trade_date, group_name) with mean aggregation,
rows sorted ascending by date. -/
def calculate_monthly_returns (data : List Row) (groups : List String) : PeriodMatrix :=
  let filtered_data := data.filter (fun r => groups.contains r.group_name)
  let index := sortedKeys (filtered_data.map (fun r => r.trade_date))
  let columns := sortedKeys (filtered_data.map (fun r => r.group_name))
  { index := index, columns := columns,
    values := index.map (fun d => columns.map (fun g => cellMean filtered_data d g)) }

/-- One row of a group CSV after the pandas to_datetime coercion of its
trade_date cell: none models NaT (an unparseable date).  Dates are encoded
as YYYYMMDD naturals, whose order agrees with calendar order. -/
structure RawRow where
  trade_date : Option ℕ
  monthly_return : ℚ
  deriving DecidableEq

/-- One row of the combined dataset built by load_group_data. -/
structure GRow where
  trade_date : ℕ
  monthly_return : ℚ
  group_id : ℕ
  group_name : String
  avg_market_cap : ℚ
  deriving DecidableEq

/-- Fixed group registry of load_group_data (src/app.py lines 61-67). -/
def group_info : ℕ → String × ℚ := fun gid =>
  if gid = 1 then ("小市值组", 20)
  else if gid = 2 then ("次小市值组", 115/2)
  else if gid = 3 then ("中等市值组", 180)
  else if gid = 4 then ("次大市值组", 380)
  else ("大市值组", 850)

/-- Upper date bound hard-coded in load_group_data (src/app.py line 71). -/
def max_allowed_date : ℕ := 20251231

/-- Per-group processing of load_group_data (src/app.py lines 94-134) for a
group CSV that exists and has a trade_date column: rows whose date fails to
parse (NaT) are removed, rows dated after max_allowed_date are removed, and
the group id, display name and average market cap columns are added. -/
def processGroup (gid : ℕ) (rows : List RawRow) : List GRow :=
  rows.filterMap (fun r =>
    match r.trade_date with
    | none => none
    | some d =>
      if d ≤ max_allowed_date then
        some { trade_date := d, monthly_return := r.monthly_return, group_id := gid,
               group_name := (group_info gid).1, avg_market_cap := (group_info gid).2 }
      else none)

/-- load_group_data (src/app.py lines 50-174): process the five group CSVs
and concatenate the surviving rows. -/
def load_group_data (inputs : ℕ → List RawRow) : List GRow :=
  ((List.range 5).map (fun k => processGroup (k+1) (inputs (k+1)))).flatten

/-- One row of the dataset handed to filter_data_by_time.  The trade_date
field holds the to_datetime parse result of the raw cell (none = NaT or an
unparseable raw value); payload stands for the remaining columns. -/
structure TRow where
  trade_date : Option ℕ
  payload : ℕ
  deriving DecidableEq

/-- A dataset with a trade_date column as filter_data_by_time sees it:
the dtype flag records whether the column is already datetime64. -/
structure TDF where
  datetimeDtype : Bool
  rows : List TRow
  deriving DecidableEq

/-- Inclusive day-level date-range test of filter_data_by_time; a NaT date
compares false on both bounds. -/
def inRange (s e : ℕ) (r : TRow) : Bool :=
  match r.trade_date with
  | some d => decide (s ≤ d ∧ d ≤ e)
  | none => false

/-- filter_data_by_time (src/app.py lines 181-256).  The result pair is
(state of the caller's frame after the call, returned frame): when the
trade_date column is not datetime64 the source converts it in place on the
caller's frame (lines 213-218), then drops NaT rows only in its local
rebinding (line 224).  Rows are kept when the day-truncated date lies in
[start, end]; when nothing survives, the local (NaT-dropped) frame is
returned instead of an empty one; an absent bound or empty input returns
the input unchanged. -/
def filter_data_by_time (data : TDF) (start_date end_date : Option ℕ) : TDF × TDF :=
  if data.rows = [] then (data, data)
  else
    match start_date, end_date with
    | some s, some e =>
      let data1 : TDF :=
        if data.datetimeDtype then data
        else { datetimeDtype := true, rows := data.rows }
      let data2 : TDF :=
        if data.datetimeDtype then data1
        else { data1 with rows := data1.rows.filter (fun r => r.trade_date.isSome) }
      let filtered_data := data2.rows.filter (inRange s e)
      if filtered_data = [] then (data1, data2)
      else (data1, { datetimeDtype := true, rows := filtered_data })
    | _, _ => (data, data)

/- Theorems.  Each claim of the specification is settled by exactly one
   theorem named after its claim id, preceded by helper lemmas where
   needed. -/

set_option linter.unnecessarySeqFocus false

/-- C1: the specification states that the rolling compounded return at row i
is the product of (1 + v) over the window minus 1, and that a column with
returns [0.05, 0.05, 0.05] under window 2 yields [0.05, 0.1025, 0.1025].
Both source definitions instead multiply factors 2 + v, because np.prod(1+x)
is applied to the already shifted series 1 + monthly_returns: on the
specification's own scenario the shadowed definition yields
[1.05, 3.2025, 3.2025] and the effective definition
[absent, 3.2025, 3.2025] - the claim is right and the code is wrong. -/
theorem C1_rolling_return_formula_bug :
    calculate_rolling_annual_return_v1 2 [some (1/20), some (1/20), some (1/20)]
        = [some (21/20), some (1281/400), some (1281/400)]
    ∧ calculate_rolling_annual_return 2 [some (1/20), some (1/20), some (1/20)]
        = [none, some (1281/400), some (1281/400)]
    ∧ calculate_rolling_annual_return_v1 2 [some (1/20), some (1/20), some (1/20)]
        ≠ [some (1/20), some (41/400), some (41/400)] := by
  refine ⟨?_, ?_, ?_⟩ <;>
    simp [calculate_rolling_annual_return_v1, calculate_rolling_annual_return, windowAt,
      List.range_succ] <;> norm_num

/-- C2: the claim states that the rolling return is defined from the first
period onward (min_periods = 1).  Only the shadowed first definition
behaves that way; the effective definition (no min_periods, so pandas
requires a full window) leaves the very first row absent for a single
present observation under the default window 12, contradicting the claim.
The volatility half of the claim (absent with fewer than 2 valid values)
is the part both variants satisfy on this input. -/
theorem C2_min_periods_shadowing_bug :
    calculate_rolling_annual_return 12 [some (1/20)] = [none]
    ∧ calculate_rolling_annual_return_v1 12 [some (1/20)] = [some (21/20)]
    ∧ calculate_rolling_volatility 12 [some (1/20)] = [none] := by
  refine ⟨?_, ?_, ?_⟩ <;>
    simp [calculate_rolling_annual_return, calculate_rolling_annual_return_v1,
      calculate_rolling_volatility, windowAt, List.range_succ] <;> norm_num

/-- C3: the claim states that a cell with exactly zero rolling volatility
gets an absent Sharpe ratio.  On the constant column [0.05, 0.05] with
window 2 the volatility at row 1 is exactly 0; the shadowed first Sharpe
definition maps it to absent via np.where, but the effective definition
divides directly and produces +infinity, contradicting the claim. -/
theorem C3_zero_vol_sharpe_inf_bug :
    calculate_rolling_sharpe 2 [some (1/20), some (1/20)] = [EVal.nan, EVal.posInf]
    ∧ calculate_rolling_sharpe_v1 2 [some (1/20), some (1/20)] = [EVal.nan, EVal.nan]
    ∧ calculate_rolling_volatility 2 [some (1/20), some (1/20)] = [none, some 0] := by
  refine ⟨?_, ?_, ?_⟩ <;>
    simp [calculate_rolling_sharpe, calculate_rolling_sharpe_v1,
      calculate_rolling_annual_return, calculate_rolling_annual_return_v1,
      calculate_rolling_volatility, calculate_rolling_volatility_v1, windowAt,
      List.range_succ, sampleVar, ofCell, divE, subE, risk_free_rate] <;> norm_num

/-- C7 counterexample: a non-empty dataset with a trade_date column whose
single date fails to parse.  The filter drops the row during conversion and
then, with nothing in range, returns the NaT-dropped frame: an empty
result, not the original input - refuting both halves of the claim. -/
theorem C7_counterexample :
    ((filter_data_by_time (TDF.mk false [TRow.mk none 0]) (some 1) (some 5)).2).rows = []
    ∧ (TDF.mk false [TRow.mk none 0]).rows ≠ []
    ∧ (filter_data_by_time (TDF.mk false [TRow.mk none 0]) (some 1) (some 5)).2
        ≠ TDF.mk false [TRow.mk none 0] := by
  decide

/-- C7 amended: when every row's trade_date parses, the returned frame
holds the rows inside the inclusive range, or all rows when no row is in
range; in particular a non-empty input never yields an empty result.  Rows
whose dates fail to parse, however, are dropped rather than triggering a
return of the original data, so the result can be empty (only) when every
date fails to parse. -/
theorem C7_filter_fallback_amended (data : TDF) (s e : ℕ)
    (hall : ∀ r ∈ data.rows, r.trade_date.isSome = true) :
    ((filter_data_by_time data (some s) (some e)).2).rows =
      (if data.rows.filter (inRange s e) = [] then data.rows
       else data.rows.filter (inRange s e))
    ∧ (data.rows ≠ [] → ((filter_data_by_time data (some s) (some e)).2).rows ≠ []) := by
  unfold filter_data_by_time
  by_cases hemp : data.rows = []
  · simp [hemp]
  · have hkeep : data.rows.filter (fun r => r.trade_date.isSome) = data.rows :=
      List.filter_eq_self.mpr hall
    by_cases hd : data.datetimeDtype <;>
      by_cases hf : data.rows.filter (inRange s e) = [] <;>
        simp [hemp, hd, hf, hkeep]

/-- C7 witness: a parseable one-row dataset filtered to a range that misses
it; the result equals the unfiltered input rows and is non-empty. -/
theorem C7_witness :
    (∀ r ∈ (TDF.mk true [TRow.mk (some 10) 0]).rows, r.trade_date.isSome = true)
    ∧ ((filter_data_by_time (TDF.mk true [TRow.mk (some 10) 0]) (some 1) (some 5)).2).rows =
        (if (TDF.mk true [TRow.mk (some 10) 0]).rows.filter (inRange 1 5) = []
         then (TDF.mk true [TRow.mk (some 10) 0]).rows
         else (TDF.mk true [TRow.mk (some 10) 0]).rows.filter (inRange 1 5)) := by
  have hall : ∀ r ∈ (TDF.mk true [TRow.mk (some 10) 0]).rows, r.trade_date.isSome = true := by
    decide
  exact ⟨hall, (C7_filter_fallback_amended (TDF.mk true [TRow.mk (some 10) 0]) 1 5 hall).1⟩

/-- C8 counterexample: when the trade_date column is not datetime64, the
source converts it in place on the caller's frame (src/app.py lines
213-218), so the caller's data is modified: the claim that
filter_data_by_time is side-effect-free on every input fails. -/
theorem C8_counterexample :
    (filter_data_by_time (TDF.mk false [TRow.mk (some 3) 0]) (some 1) (some 5)).1
      ≠ TDF.mk false [TRow.mk (some 3) 0] := by
  decide

/-- C8 amended: filter_data_by_time leaves the caller's data unmodified
whenever the trade_date column is already datetime-typed (the only mutation
is the in-place dtype conversion); the aggregation and rolling computations
are pure functions of their inputs. -/
theorem C8_no_mutation_amended (data : TDF) (sd ed : Option ℕ)
    (h : data.datetimeDtype = true) :
    (filter_data_by_time data sd ed).1 = data := by
  unfold filter_data_by_time
  by_cases hemp : data.rows = []
  · simp [hemp]
  · cases sd <;> cases ed <;>
      simp [hemp, h] <;>
      split <;> rfl

/-- C8 witness: a datetime-typed frame passes through with its caller state
untouched. -/
theorem C8_witness :
    (TDF.mk true [TRow.mk (some 3) 0]).datetimeDtype = true
    ∧ (filter_data_by_time (TDF.mk true [TRow.mk (some 3) 0]) (some 1) (some 5)).1
        = TDF.mk true [TRow.mk (some 3) 0] := by
  exact ⟨rfl, C8_no_mutation_amended (TDF.mk true [TRow.mk (some 3) 0]) (some 1) (some 5) rfl⟩

/-- Sorted distinct keys are determined by the multiset of raw keys, hence
invariant under permutation of the input rows. -/
theorem sortedKeys_perm_eq {α : Type} [LinearOrder α] [DecidableEq α] {l l2 : List α}
    (h : l.Perm l2) : sortedKeys l = sortedKeys l2 := by
  unfold sortedKeys
  refine List.eq_of_perm_of_sorted
    ((List.perm_insertionSort _ _).trans (h.dedup.trans (List.perm_insertionSort _ _).symm))
    (List.sorted_insertionSort _ _) (List.sorted_insertionSort _ _)

/-- The mean of a (period, group) cell only depends on the multiset of
rows, hence is invariant under permutation. -/
theorem cellMean_perm {rows rows2 : List Row} (h : rows.Perm rows2) (d : ℕ) (g : String) :
    cellMean rows d g = cellMean rows2 d g := by
  have hp := (h.filter (fun r => decide (r.trade_date = d ∧ r.group_name = g))).map
    (fun r => r.monthly_return)
  simp only [cellMean, hp.length_eq, hp.sum_eq]

/-- C9: aggregation determinism.  For every input dataset, every permutation
of its row order and every requested group list, calculate_monthly_returns
produces an identical period matrix: the same sorted ascending period
index, the same columns and the same mean value in every cell. -/
theorem C9_aggregation_permutation_invariant (data data2 : List Row) (groups : List String)
    (h : data.Perm data2) :
    calculate_monthly_returns data groups = calculate_monthly_returns data2 groups := by
  have hf : (data.filter (fun r => groups.contains r.group_name)).Perm
      (data2.filter (fun r => groups.contains r.group_name)) := h.filter _
  have hcell : ∀ (d : ℕ) (g : String),
      cellMean (data.filter (fun r => groups.contains r.group_name)) d g
        = cellMean (data2.filter (fun r => groups.contains r.group_name)) d g :=
    fun d g => cellMean_perm hf d g
  simp only [calculate_monthly_returns]
  rw [sortedKeys_perm_eq (hf.map (fun r => r.trade_date)),
    sortedKeys_perm_eq (hf.map (fun r => r.group_name))]
  simp only [hcell]

/-- C9 witness: a concrete two-row dataset and its swap produce the same
period matrix. -/
theorem C9_witness :
    ([Row.mk 2 "A" 0, Row.mk 1 "A" 1] : List Row).Perm [Row.mk 1 "A" 1, Row.mk 2 "A" 0]
    ∧ calculate_monthly_returns [Row.mk 2 "A" 0, Row.mk 1 "A" 1] ["A"]
        = calculate_monthly_returns [Row.mk 1 "A" 1, Row.mk 2 "A" 0] ["A"] := by
  have hp : ([Row.mk 2 "A" 0, Row.mk 1 "A" 1] : List Row).Perm
      [Row.mk 1 "A" 1, Row.mk 2 "A" 0] := List.Perm.swap _ _ _
  exact ⟨hp, C9_aggregation_permutation_invariant _ _ ["A"] hp⟩

/-- C10: every row of the combined dataset built by load_group_data carries
a parsed date no later than 2025-12-31; rows with a later date and rows
whose date fails to parse are dropped before the groups are merged. -/
theorem C10_load_group_data_max_date (inputs : ℕ → List RawRow) (r : GRow)
    (hr : r ∈ load_group_data inputs) : r.trade_date ≤ max_allowed_date := by
  simp only [load_group_data, List.mem_flatten, List.mem_map] at hr
  obtain ⟨L, ⟨k, hk, rfl⟩, hrL⟩ := hr
  simp only [processGroup, List.mem_filterMap] at hrL
  obtain ⟨raw, hmem, hraw⟩ := hrL
  split at hraw
  · exact absurd hraw (by simp)
  · split at hraw
    · cases hraw
      assumption
    · exact absurd hraw (by simp)

/-- C10 witness: a one-row group file dated 2024-01-01 survives into the
combined data and satisfies the bound. -/
theorem C10_witness :
    (GRow.mk 20240101 0 1 "小市值组" 20) ∈
      load_group_data (fun g => if g = 1 then [RawRow.mk (some 20240101) 0] else [])
    ∧ (GRow.mk 20240101 0 1 "小市值组" 20).trade_date ≤ max_allowed_date := by
  have hmem : (GRow.mk 20240101 0 1 "小市值组" 20) ∈
      load_group_data (fun g => if g = 1 then [RawRow.mk (some 20240101) 0] else []) :=
    List.Mem.head _
  exact ⟨hmem, C10_load_group_data_max_date _ _ hmem⟩

/-- Cell i of the score column is the fillna of the raw per-cell score. -/
theorem computeScoresCol_getD (A V : List (Option ℚ)) (S : List EVal) (i : ℕ)
    (hi : i < A.length) (d : EVal) :
    (computeScoresCol A V S).getD i d = fillna0 (scoreCellRaw A V S i) := by
  simp only [computeScoresCol, List.getD_eq_getElem?_getD, List.getElem?_map,
    List.getElem?_range hi, Option.map_some', Option.getD_some]

/-- C4 counterexample: a one-row dataset whose single rolling annual-return
cell is absent (fewer than window observations).  The claim says the score
cell is then absent, but the scorer's final fillna(0) makes it a present 0:
the score column is [0], not [absent]. -/
theorem C4_counterexample :
    calculate_time_series_metrics_scores 12 [some (1/20)] = [EVal.fin 0]
    ∧ calculate_rolling_annual_return 12 [some (1/20)] = [none] := by
  constructor
  · simp [calculate_time_series_metrics_scores, computeScoresCol, scoreCellRaw,
      calculate_rolling_annual_return, calculate_rolling_volatility,
      calculate_rolling_sharpe, windowAt, List.range_succ, fillna0]
  · simp [calculate_rolling_annual_return, windowAt, List.range_succ]

/-- C4 amended: a score value is computed from the three statistics only for
cells where all three are present, but a cell with any absent input is set
to 0 by the final fillna - it is present with value 0, never absent. -/
theorem C4_absent_inputs_score_zero (A V : List (Option ℚ)) (S : List EVal) (i : ℕ)
    (hi : i < A.length)
    (h : A.getD i none = none ∨ V.getD i none = none ∨ S.getD i EVal.nan = EVal.nan) :
    (computeScoresCol A V S).getD i (EVal.fin 1) = EVal.fin 0 := by
  rw [computeScoresCol_getD A V S i hi]
  unfold scoreCellRaw
  rcases h with h | h | h
  · rw [h]
    rfl
  · cases hA : A.getD i none
    · rfl
    · rw [h]
      rfl
  · cases hA : A.getD i none
    · rfl
    · cases hV : V.getD i none
      · rfl
      · rw [h]
        rfl

/-- C4 witness: the all-absent single-cell instance of the amended claim. -/
theorem C4_witness :
    0 < ([none] : List (Option ℚ)).length
    ∧ (([none] : List (Option ℚ)).getD 0 none = none
        ∨ ([none] : List (Option ℚ)).getD 0 none = none
        ∨ ([EVal.nan] : List EVal).getD 0 EVal.nan = EVal.nan)
    ∧ (computeScoresCol [none] [none] [EVal.nan]).getD 0 (EVal.fin 1) = EVal.fin 0 := by
  refine ⟨by decide, Or.inl rfl, ?_⟩
  exact C4_absent_inputs_score_zero [none] [none] [EVal.nan] 0 (by decide) (Or.inl rfl)

/-- Folding min over rationals stays below the initial value. -/
theorem foldl_min_le_init (xs : List ℚ) (a : ℚ) : xs.foldl min a ≤ a := by
  induction xs generalizing a with
  | nil => exact le_refl a
  | cons b t ih => exact le_trans (ih (min a b)) (min_le_left a b)

/-- Folding min over rationals stays below every member. -/
theorem foldl_min_le_mem (xs : List ℚ) (a x : ℚ) (hx : x ∈ xs) : xs.foldl min a ≤ x := by
  induction xs generalizing a with
  | nil => cases hx
  | cons b t ih =>
    rcases List.mem_cons.mp hx with rfl | hx2
    · exact le_trans (foldl_min_le_init t (min a x)) (min_le_right a x)
    · exact ih _ hx2

/-- Folding max over rationals stays above the initial value. -/
theorem le_foldl_max_init (xs : List ℚ) (a : ℚ) : a ≤ xs.foldl max a := by
  induction xs generalizing a with
  | nil => exact le_refl a
  | cons b t ih => exact le_trans (le_max_left a b) (ih (max a b))

/-- Folding max over rationals stays above every member. -/
theorem le_foldl_max_mem (xs : List ℚ) (a x : ℚ) (hx : x ∈ xs) : x ≤ xs.foldl max a := by
  induction xs generalizing a with
  | nil => cases hx
  | cons b t ih =>
    rcases List.mem_cons.mp hx with rfl | hx2
    · exact le_trans (le_max_right a x) (le_foldl_max_init t (max a x))
    · exact ih _ hx2

/-- The column minimum is below every present value. -/
theorem histMinQ_le (l : List (Option ℚ)) (x : ℚ) (hx : x ∈ l.filterMap id) :
    histMinQ l ≤ x := by
  unfold histMinQ
  cases hfm : l.filterMap id with
  | nil => rw [hfm] at hx; cases hx
  | cons c cs =>
    rw [hfm] at hx
    rcases List.mem_cons.mp hx with rfl | hx2
    · exact foldl_min_le_init cs x
    · exact foldl_min_le_mem cs c x hx2

/-- The column maximum is above every present value. -/
theorem le_histMaxQ (l : List (Option ℚ)) (x : ℚ) (hx : x ∈ l.filterMap id) :
    x ≤ histMaxQ l := by
  unfold histMaxQ
  cases hfm : l.filterMap id with
  | nil => rw [hfm] at hx; cases hx
  | cons c cs =>
    rw [hfm] at hx
    rcases List.mem_cons.mp hx with rfl | hx2
    · exact le_foldl_max_init cs x
    · exact le_foldl_max_mem cs c x hx2

/-- A getD result different from the default is a member of the list. -/
theorem getD_mem_of_ne {α : Type} (l : List α) (i : ℕ) (d : α) (h : l.getD i d ≠ d) :
    l.getD i d ∈ l := by
  rw [List.getD_eq_getElem?_getD] at h ⊢
  cases hg : l[i]? with
  | none => rw [hg] at h; simp at h
  | some a =>
    simp only [Option.getD_some]
    exact List.getElem?_mem hg

/-- A some-valued getD over an Option column exhibits membership. -/
theorem getD_eq_some_mem {α : Type} (l : List (Option α)) (i : ℕ) (a : α)
    (h : l.getD i none = some a) : some a ∈ l := by
  have h2 := getD_mem_of_ne l i none (by rw [h]; exact Option.some_ne_none a)
  rwa [h] at h2

/-- A true strict comparison gives a true non-strict comparison. -/
theorem ltE_leE {a b : EVal} (h : ltE a b = true) : leE a b = true := by
  simp [leE, h]

/-- The non-strict comparison is reflexive. -/
theorem leE_refl (a : EVal) : leE a a = true := by simp [leE]

/-- The non-strict comparison is transitive. -/
theorem leE_trans {a b c : EVal} (h1 : leE a b = true) (h2 : leE b c = true) :
    leE a c = true := by
  rcases a with _ | _ | _ | qa <;> rcases b with _ | _ | _ | qb <;>
    rcases c with _ | _ | _ | qc <;> simp_all [leE, ltE]
  rcases h1 with h1 | rfl <;> rcases h2 with h2 | rfl
  · exact Or.inl (lt_trans h1 h2)
  · exact Or.inl h1
  · exact Or.inl h2
  · exact Or.inr rfl

/-- Totality of the comparisons away from NaN. -/
theorem leE_of_not_ltE {a b : EVal} (ha : a ≠ EVal.nan) (hb : b ≠ EVal.nan)
    (h : ltE a b = false) : leE b a = true := by
  rcases a with _ | _ | _ | qa <;> rcases b with _ | _ | _ | qb <;>
    simp_all [leE, ltE]
  exact lt_or_eq_of_le h

/-- The binary minimum is one of its arguments. -/
theorem min2E_eq_or (a b : EVal) : min2E a b = a ∨ min2E a b = b := by
  unfold min2E; split
  · exact Or.inl rfl
  · exact Or.inr rfl

/-- The binary maximum is one of its arguments. -/
theorem max2E_eq_or (a b : EVal) : max2E a b = a ∨ max2E a b = b := by
  unfold max2E; split
  · exact Or.inr rfl
  · exact Or.inl rfl

/-- The binary minimum is below its left argument. -/
theorem min2E_leE_left (a b : EVal) (ha : a ≠ EVal.nan) (hb : b ≠ EVal.nan) :
    leE (min2E a b) a = true := by
  unfold min2E; split
  · exact leE_refl a
  · next h => exact leE_of_not_ltE ha hb (by simpa using h)

/-- The binary minimum is below its right argument. -/
theorem min2E_leE_right (a b : EVal) (ha : a ≠ EVal.nan) (hb : b ≠ EVal.nan) :
    leE (min2E a b) b = true := by
  unfold min2E; split
  · next h => exact ltE_leE h
  · exact leE_refl b

/-- The binary maximum is above its left argument. -/
theorem max2E_leE_left (a b : EVal) (ha : a ≠ EVal.nan) (hb : b ≠ EVal.nan) :
    leE a (max2E a b) = true := by
  unfold max2E; split
  · next h => exact ltE_leE h
  · exact leE_refl a

/-- The binary maximum is above its right argument. -/
theorem max2E_leE_right (a b : EVal) (ha : a ≠ EVal.nan) (hb : b ≠ EVal.nan) :
    leE b (max2E a b) = true := by
  unfold max2E; split
  · exact leE_refl b
  · next h => exact leE_of_not_ltE ha hb (by simpa using h)

/-- Folding the binary minimum over a NaN-free list gives a NaN-free lower
bound of the initial value and of every member. -/
theorem foldl_min2E_leE (t : List EVal) (a : EVal) (ha : a ≠ EVal.nan)
    (ht : ∀ y ∈ t, y ≠ EVal.nan) :
    (t.foldl min2E a ≠ EVal.nan) ∧ leE (t.foldl min2E a) a = true
      ∧ ∀ x ∈ t, leE (t.foldl min2E a) x = true := by
  induction t generalizing a with
  | nil => exact ⟨ha, leE_refl a, by simp⟩
  | cons b t2 ih =>
    have hb : b ≠ EVal.nan := ht b (List.mem_cons_self b t2)
    have ht2 : ∀ y ∈ t2, y ≠ EVal.nan := fun y hy => ht y (List.mem_cons_of_mem b hy)
    have hm : min2E a b ≠ EVal.nan := by
      rcases min2E_eq_or a b with h | h <;> rw [h] <;> assumption
    obtain ⟨hne, hinit, hmem⟩ := ih (min2E a b) hm ht2
    rw [List.foldl_cons]
    refine ⟨hne, leE_trans hinit (min2E_leE_left a b ha hb), ?_⟩
    intro x hx
    rcases List.mem_cons.mp hx with rfl | hx2
    · exact leE_trans hinit (min2E_leE_right a x ha hb)
    · exact hmem x hx2

/-- Folding the binary maximum over a NaN-free list gives a NaN-free upper
bound of the initial value and of every member. -/
theorem foldl_max2E_leE (t : List EVal) (a : EVal) (ha : a ≠ EVal.nan)
    (ht : ∀ y ∈ t, y ≠ EVal.nan) :
    (t.foldl max2E a ≠ EVal.nan) ∧ leE a (t.foldl max2E a) = true
      ∧ ∀ x ∈ t, leE x (t.foldl max2E a) = true := by
  induction t generalizing a with
  | nil => exact ⟨ha, leE_refl a, by simp⟩
  | cons b t2 ih =>
    have hb : b ≠ EVal.nan := ht b (List.mem_cons_self b t2)
    have ht2 : ∀ y ∈ t2, y ≠ EVal.nan := fun y hy => ht y (List.mem_cons_of_mem b hy)
    have hm : max2E a b ≠ EVal.nan := by
      rcases max2E_eq_or a b with h | h <;> rw [h] <;> assumption
    obtain ⟨hne, hinit, hmem⟩ := ih (max2E a b) hm ht2
    rw [List.foldl_cons]
    refine ⟨hne, leE_trans (max2E_leE_left a b ha hb) hinit, ?_⟩
    intro x hx
    rcases List.mem_cons.mp hx with rfl | hx2
    · exact leE_trans (max2E_leE_right a x ha hb) hinit
    · exact hmem x hx2

/-- The skipna minimum of a non-empty NaN-free column is NaN-free and below
every member. -/
theorem minE_spec (l : List EVal) (hl : ∀ y ∈ l, y ≠ EVal.nan) (hne : l ≠ []) :
    minE l ≠ EVal.nan ∧ ∀ x ∈ l, leE (minE l) x = true := by
  cases l with
  | nil => exact absurd rfl hne
  | cons c cs =>
    have hc : c ≠ EVal.nan := hl c (List.mem_cons_self c cs)
    have hcs : ∀ y ∈ cs, y ≠ EVal.nan := fun y hy => hl y (List.mem_cons_of_mem c hy)
    obtain ⟨h1, h2, h3⟩ := foldl_min2E_leE cs c hc hcs
    refine ⟨h1, ?_⟩
    intro x hx
    rcases List.mem_cons.mp hx with rfl | hx2
    · exact h2
    · exact h3 x hx2

/-- The skipna maximum of a non-empty NaN-free column is NaN-free and above
every member. -/
theorem maxE_spec (l : List EVal) (hl : ∀ y ∈ l, y ≠ EVal.nan) (hne : l ≠ []) :
    maxE l ≠ EVal.nan ∧ ∀ x ∈ l, leE x (maxE l) = true := by
  cases l with
  | nil => exact absurd rfl hne
  | cons c cs =>
    have hc : c ≠ EVal.nan := hl c (List.mem_cons_self c cs)
    have hcs : ∀ y ∈ cs, y ≠ EVal.nan := fun y hy => hl y (List.mem_cons_of_mem c hy)
    obtain ⟨h1, h2, h3⟩ := foldl_max2E_leE cs c hc hcs
    refine ⟨h1, ?_⟩
    intro x hx
    rcases List.mem_cons.mp hx with rfl | hx2
    · exact h2
    · exact h3 x hx2

/-- Min-max normalisation of a value within bounds lands in [0, 100]. -/
theorem norm_bounds {x m M : ℚ} (h1 : m ≤ x) (h2 : x ≤ M) (h : m < M) :
    0 ≤ 100 * (x - m) / (M - m) ∧ 100 * (x - m) / (M - m) ≤ 100 := by
  have hpos : (0:ℚ) < M - m := by linarith
  constructor
  · exact div_nonneg (by linarith) hpos.le
  · rw [div_le_iff hpos]
    linarith

/-- The annual-return sub-score of a present cell lies in [0, 100]. -/
theorem annual_score_of_bounds (A : List (Option ℚ)) (a : ℚ) (ha : some a ∈ A) :
    0 ≤ annual_score_of A a ∧ annual_score_of A a ≤ 100 := by
  unfold annual_score_of
  split
  · next h =>
    have haf : a ∈ A.filterMap id := List.mem_filterMap.mpr ⟨some a, ha, rfl⟩
    exact norm_bounds (histMinQ_le A a haf) (le_histMaxQ A a haf) h
  · norm_num

/-- The volatility sub-score of a present cell lies in [0, 100], with or
without the high-volatility penalty. -/
theorem vol_score_of_bounds (V : List (Option ℚ)) (v : ℚ) (hv : some v ∈ V) :
    0 ≤ vol_score_of V v ∧ vol_score_of V v ≤ 100 := by
  unfold vol_score_of
  split
  · next h =>
    have hvf : v ∈ V.filterMap id := List.mem_filterMap.mpr ⟨some v, hv, rfl⟩
    have hlo := histMinQ_le V v hvf
    have hhi := le_histMaxQ V v hvf
    have hpos : (0:ℚ) < histMaxQ V - histMinQ V := by linarith
    have hr1 : 0 ≤ (v - histMinQ V) / (histMaxQ V - histMinQ V) :=
      div_nonneg (by linarith) hpos.le
    have hr2 : (v - histMinQ V) / (histMaxQ V - histMinQ V) ≤ 1 := by
      rw [div_le_one hpos]; linarith
    split
    · constructor <;> nlinarith
    · constructor <;> nlinarith
  · norm_num
/-- The Sharpe sub-score of a present (non-NaN) cell is NaN or a rational
in [0, 100]: when the column holds an infinity, the normalisation collapses
to 0 or NaN; in the all-finite case the min-max bounds apply.  NaN
sub-scores make the total NaN and are turned into 0 by the final fillna. -/
theorem sharpe_score_of_bound (S : List EVal) (sv : EVal) (hmem : sv ∈ S)
    (hne : sv ≠ EVal.nan) :
    sharpe_score_of S sv = EVal.nan
      ∨ ∃ q, sharpe_score_of S sv = EVal.fin q ∧ 0 ≤ q ∧ q ≤ 100 := by
  have hsvL : sv ∈ nonNanE S := by
    simp [nonNanE, List.mem_filter, hmem, hne]
  have hLnn : ∀ y ∈ nonNanE S, y ≠ EVal.nan := by
    intro y hy
    simp only [nonNanE, List.mem_filter, decide_eq_true_eq] at hy
    exact hy.2
  have hLne : nonNanE S ≠ [] := by
    intro h0
    rw [h0] at hsvL
    cases hsvL
  obtain ⟨hminne, hminle⟩ := minE_spec _ hLnn hLne
  obtain ⟨hmaxne, hmaxle⟩ := maxE_spec _ hLnn hLne
  have h1 := hminle sv hsvL
  have h2 := hmaxle sv hsvL
  unfold sharpe_score_of
  generalize hm : minE (nonNanE S) = smin at h1 hminne ⊢
  generalize hM : maxE (nonNanE S) = smax at h2 hmaxne ⊢
  by_cases hlt : ltE smin smax = true
  case neg =>
    rw [if_neg hlt]
    exact Or.inr ⟨0, rfl, le_refl 0, by norm_num⟩
  case pos =>
    rw [if_pos hlt]
    rcases smin with _ | _ | _ | m
    · exact absurd rfl hminne
    · rcases sv with _ | _ | _ | q
      · exact absurd rfl hne
      · left
        norm_num [subE, smulE, divE, ltE]
      · rcases smax with _ | _ | _ | M
        · exact absurd rfl hmaxne
        · simp [ltE] at hlt
        · left
          norm_num [subE, smulE, divE, ltE]
        · left
          norm_num [subE, smulE, divE, ltE]
      · rcases smax with _ | _ | _ | M
        · exact absurd rfl hmaxne
        · simp [ltE] at hlt
        · left
          norm_num [subE, smulE, divE, ltE]
        · left
          norm_num [subE, smulE, divE, ltE]
    · simp [ltE] at hlt
    · rcases sv with _ | _ | _ | q
      · exact absurd rfl hne
      · simp [leE, ltE] at h1
      · rcases smax with _ | _ | _ | M
        · exact absurd rfl hmaxne
        · simp [leE, ltE] at h2
        · left
          norm_num [subE, smulE, divE, ltE]
        · simp [leE, ltE] at h2
      · have hmq : m ≤ q := by
          simp only [leE, ltE, Bool.or_eq_true, decide_eq_true_eq, EVal.fin.injEq] at h1
          rcases h1 with h | h
          · exact le_of_lt h
          · exact le_of_eq h
        rcases smax with _ | _ | _ | M
        · exact absurd rfl hmaxne
        · simp [leE, ltE] at h2
        · right
          simp only [subE, smulE, divE]
          split
          · exact ⟨1/2 * 0, by norm_num, by norm_num, by norm_num⟩
          · exact ⟨0, by norm_num, by norm_num, by norm_num⟩
        · have hMq : q ≤ M := by
            simp only [leE, ltE, Bool.or_eq_true, decide_eq_true_eq, EVal.fin.injEq] at h2
            rcases h2 with h | h
            · exact le_of_lt h
            · exact le_of_eq h
          have hmM : m < M := by simpa [ltE] using hlt
          obtain ⟨hb1, hb2⟩ := norm_bounds hmq hMq hmM
          right
          simp only [subE, smulE, divE]
          rw [if_neg (sub_ne_zero.mpr (ne_of_gt hmM))]
          split
          · exact ⟨1/2 * (100 * (q - m) / (M - m)), rfl, by linarith, by linarith⟩
          · exact ⟨100 * (q - m) / (M - m), rfl, hb1, hb2⟩
/-- The filled weighted total of a fully present cell is a rational in
[0, 100]. -/
theorem scoreBody_bound (A V : List (Option ℚ)) (S : List EVal) (a v : ℚ) (sv : EVal)
    (hamem : some a ∈ A) (hvmem : some v ∈ V) (hsmem : sv ∈ S) (hsv : sv ≠ EVal.nan) :
    ∃ q, fillna0 (addE (EVal.fin (3/10 * annual_score_of A a + 1/5 * vol_score_of V v))
        (smulE (1/2) (sharpe_score_of S sv))) = EVal.fin q ∧ 0 ≤ q ∧ q ≤ 100 := by
  obtain ⟨ha1, ha2⟩ := annual_score_of_bounds A a hamem
  obtain ⟨hv1, hv2⟩ := vol_score_of_bounds V v hvmem
  rcases sharpe_score_of_bound S sv hsmem hsv with hs | ⟨u, hs, hu1, hu2⟩
  · refine ⟨0, ?_, le_refl 0, by norm_num⟩
    rw [hs]
    rfl
  · refine ⟨3/10 * annual_score_of A a + 1/5 * vol_score_of V v + 1/2 * u, ?_, ?_, ?_⟩
    · rw [hs]
      simp [smulE, addE, fillna0]
    · positivity
    · linarith

/-- Every filled score cell is a rational in [0, 100]. -/
theorem scoreCell_fillna_bound (A V : List (Option ℚ)) (S : List EVal) (i : ℕ) :
    ∃ q, fillna0 (scoreCellRaw A V S i) = EVal.fin q ∧ 0 ≤ q ∧ q ≤ 100 := by
  unfold scoreCellRaw
  cases hA : A.getD i none with
  | none => exact ⟨0, rfl, le_refl 0, by norm_num⟩
  | some a =>
    cases hV : V.getD i none with
    | none => exact ⟨0, rfl, le_refl 0, by norm_num⟩
    | some v =>
      by_cases hsv : S.getD i EVal.nan = EVal.nan
      · rw [hsv]
        exact ⟨0, rfl, le_refl 0, by norm_num⟩
      · have hamem : some a ∈ A := getD_eq_some_mem A i a hA
        have hvmem : some v ∈ V := getD_eq_some_mem V i v hV
        have hsmem : S.getD i EVal.nan ∈ S := getD_mem_of_ne S i EVal.nan hsv
        generalize hg : S.getD i EVal.nan = sv at hsv hsmem ⊢
        rcases sv with _ | _ | _ | q
        · exact absurd rfl hsv
        · exact scoreBody_bound A V S a v EVal.negInf hamem hvmem hsmem hsv
        · exact scoreBody_bound A V S a v EVal.posInf hamem hvmem hsmem hsv
        · exact scoreBody_bound A V S a v (EVal.fin q) hamem hvmem hsmem hsv
/-- C5: score bounds.  Every cell of the total-score column produced by the
effective scorer - for any rolling annual-return, volatility and Sharpe
columns, hence in particular for the ones calculate_time_series_metrics
feeds it - is a present rational value between 0 and 100 inclusive. -/
theorem C5_score_bounds (A V : List (Option ℚ)) (S : List EVal) (x : EVal)
    (hx : x ∈ computeScoresCol A V S) :
    ∃ q, x = EVal.fin q ∧ 0 ≤ q ∧ q ≤ 100 := by
  simp only [computeScoresCol, List.mem_map] at hx
  obtain ⟨y, ⟨i, hi, rfl⟩, rfl⟩ := hx
  exact scoreCell_fillna_bound A V S i

/-- C5 witness: the single cell of a concrete one-row score column is in
bounds. -/
theorem C5_witness :
    (computeScoresCol [some 0] [some 0] [EVal.fin 0]).getD 0 (EVal.fin 0)
      ∈ computeScoresCol [some 0] [some 0] [EVal.fin 0]
    ∧ ∃ q, (computeScoresCol [some 0] [some 0] [EVal.fin 0]).getD 0 (EVal.fin 0) = EVal.fin q
        ∧ 0 ≤ q ∧ q ≤ 100 := by
  have hlen : 0 < (computeScoresCol [some 0] [some 0] [EVal.fin 0]).length := by
    simp [computeScoresCol]
  have hx : (computeScoresCol [some 0] [some 0] [EVal.fin 0]).getD 0 (EVal.fin 0)
      ∈ computeScoresCol [some 0] [some 0] [EVal.fin 0] := by
    rw [List.getD_eq_getElem?_getD, List.getElem?_eq_getElem hlen]
    exact List.getElem_mem hlen
  exact ⟨hx, C5_score_bounds _ _ _ _ hx⟩
/-- C6: for a cell where all three statistics are present and each column
has a nondegenerate finite min-max range, the scorer's cell equals the
specification's formula: 0.3 * return_score + 0.2 * volatility_score
+ 0.5 * sharpe_score, each sub-score min-max normalised over the group's
full history (volatility inverted), the volatility sub-score multiplied by
0.7 when the raw value exceeds min + 0.75 * (max - min), and the Sharpe
sub-score multiplied by 0.5 after normalisation when the raw value is
negative. -/
theorem C6_composite_formula (A V : List (Option ℚ)) (S : List EVal) (i : ℕ) (a v sv sm sM : ℚ)
    (hi : i < A.length)
    (hA : A.getD i none = some a)
    (hV : V.getD i none = some v)
    (hS : S.getD i EVal.nan = EVal.fin sv)
    (hsmin : minE (nonNanE S) = EVal.fin sm)
    (hsmax : maxE (nonNanE S) = EVal.fin sM)
    (hra : histMinQ A < histMaxQ A)
    (hrv : histMinQ V < histMaxQ V)
    (hrs : sm < sM) :
    (computeScoresCol A V S).getD i (EVal.fin 0)
      = EVal.fin (spec_composite_score a (histMinQ A) (histMaxQ A) v (histMinQ V)
          (histMaxQ V) sv sm sM) := by
  have h1 : annual_score_of A a = spec_return_score a (histMinQ A) (histMaxQ A) := by
    unfold annual_score_of spec_return_score
    rw [if_pos hra]
  have h2 : vol_score_of V v = spec_volatility_score v (histMinQ V) (histMaxQ V) := by
    unfold vol_score_of spec_volatility_score
    rw [if_pos hrv]
    split <;> ring
  have h3 : sharpe_score_of S (EVal.fin sv) = EVal.fin (spec_sharpe_score sv sm sM) := by
    unfold sharpe_score_of spec_sharpe_score
    rw [hsmin, hsmax]
    rw [if_pos (by simp [ltE, hrs])]
    simp only [subE, smulE, divE]
    rw [if_neg (sub_ne_zero.mpr (ne_of_gt hrs))]
    by_cases hneg : sv < 0
    · rw [if_pos (by simp [ltE, hneg]), if_pos hneg]
    · rw [if_neg (by simp [ltE, hneg]), if_neg hneg]
      rw [EVal.fin.injEq]
      ring
  have hbody : scoreCellRaw A V S i
      = addE (EVal.fin (3/10 * annual_score_of A a + 1/5 * vol_score_of V v))
        (smulE (1/2) (sharpe_score_of S (EVal.fin sv))) := by
    unfold scoreCellRaw
    rw [hA, hV, hS]
    rfl
  rw [computeScoresCol_getD A V S i hi, hbody, h3, h1, h2]
  simp only [smulE, addE, fillna0, spec_composite_score]
  rw [if_neg (fun h => EVal.noConfusion h)]
/-- C6 witness: a concrete two-row instance with nondegenerate ranges. -/
theorem C6_witness :
    histMinQ [some 0, some 1] < histMaxQ [some 0, some 1]
    ∧ ((0:ℚ) < 1)
    ∧ (computeScoresCol [some 0, some 1] [some 0, some 1]
          [EVal.fin 0, EVal.fin 1]).getD 0 (EVal.fin 0)
        = EVal.fin (spec_composite_score 0 (histMinQ [some 0, some 1])
            (histMaxQ [some 0, some 1]) 0 (histMinQ [some 0, some 1])
            (histMaxQ [some 0, some 1]) 0 0 1) := by
  have hra : histMinQ ([some 0, some 1] : List (Option ℚ)) < histMaxQ [some 0, some 1] := by
    decide
  have hsmin : minE (nonNanE [EVal.fin 0, EVal.fin 1]) = EVal.fin 0 := by
    decide
  have hsmax : maxE (nonNanE [EVal.fin 0, EVal.fin 1]) = EVal.fin 1 := by
    decide
  refine ⟨hra, by norm_num, ?_⟩
  exact C6_composite_formula [some 0, some 1] [some 0, some 1] [EVal.fin 0, EVal.fin 1] 0 0 0 0 0 1
    (by norm_num) rfl rfl rfl hsmin hsmax hra hra (by norm_num)
